import Mathlib

/-!
Verification of the function-extraction core of pakkun (src/parse/parse.go).

The Go source is shallowly embedded below.  Go byte strings are modelled as
`String` / `List Char` (all inputs of interest are ASCII, where Go's byte
indices coincide with character indices).  The Go `map[string]bool` type
universe is modelled as `String → Option Bool` (`none` = key absent, matching
the two-valued `v, ok := m[k]` lookup).  Go code that can panic or call
`log.Fatal` is modelled with `Option`: `none` is an aborted process.

The goroutine fan-out in `parseJavaFuncHeader` only performs monotonic
flag-sets and list-appends that are read after `wg.Wait()`; it is modelled by
performing the same effects sequentially in declaration order (the order the
goroutines are spawned in), which fixes one of the racy append interleavings.
None of the theorems below depend on the append order beyond that choice.
-/

namespace Pakkun

/-- The `funcTypes map[string]bool` argument: `none` models an absent key,
`some b` a present key with value `b`. -/
def Universe := String → Option Bool

/-- Go `strings.Split(s, sep)` for a single-character separator. -/
def splitOnChar (sep : Char) : List Char → List (List Char)
  | [] => [[]]
  | c :: t =>
    if c = sep then [] :: splitOnChar sep t
    else
      match splitOnChar sep t with
      | [] => [[c]]
      | h :: r => (c :: h) :: r

/-- `strings.Split(s, sep)` lifted to `String`. -/
def goSplitChar (sep : Char) (s : String) : List String :=
  (splitOnChar sep s.toList).map (fun l => String.mk l)

/-- Go's ASCII whitespace set used by `strings.TrimSpace`
(space, \t, \n, \v, \f, \r). -/
def isSpaceGo (c : Char) : Bool :=
  c == ' ' || c == '\t' || c == '\n' || c == '\r' ||
  c == Char.ofNat 11 || c == Char.ofNat 12

/-- Drop leading and trailing whitespace from a character list. -/
def trimChars (l : List Char) : List Char :=
  ((l.dropWhile isSpaceGo).reverse.dropWhile isSpaceGo).reverse

/-- Go `strings.TrimSpace` (ASCII fragment). -/
def goTrim (s : String) : String := String.mk (trimChars s.toList)

/-- The text before the first occurrence of `//`:
Go `strings.Split(header, "//")[0]`. -/
def beforeCommentChars : List Char → List Char
  | [] => []
  | [c] => [c]
  | c :: d :: t =>
    if c = '/' && d = '/' then [] else c :: beforeCommentChars (d :: t)

/-- `strings.Split(header, "//")[0]` on `String`. -/
def beforeComment (s : String) : String := String.mk (beforeCommentChars s.toList)

/-- Line 92 of parse.go:
`header = strings.TrimSpace(strings.Split(header, "//")[0])`. -/
def preprocess (header : String) : String := goTrim (beforeComment header)

/-- The even-indexed elements of a list (indices 0, 2, 4, ...); the loop
`for i, t := range parameters { if i %2 == 0 { ... } }` touches exactly
these elements. -/
def evenIdx {α : Type} : List α → List α
  | [] => []
  | [a] => [a]
  | a :: _ :: t => a :: evenIdx t

/-- `strings.Split(split[0], " ")`: tokens of the left segment of the header
(before the first parenthesis). -/
def leftSegTokens (h : String) : List String :=
  goSplitChar ' ' ((goSplitChar '(' h).getD 0 "")

/-- `nonparameters` after `nonparameters = nonparameters[:len(nonparameters)-1]`:
the left-segment tokens with the candidate function name removed. -/
def leftNonparams (h : String) : List String := (leftSegTokens h).dropLast

/-- `fname = nonparameters[len(nonparameters)-1]`: the candidate function
name (the last left-segment token). -/
def leftName (h : String) : String := (leftSegTokens h).getLastD ""

/-- `strings.Split(split[1], ")")[0]`: the parameter-list text between the
opening parenthesis and the first closing parenthesis. -/
def paramTextOf (h : String) : String :=
  (goSplitChar ')' ((goSplitChar '(' h).getD 1 "")).getD 0 ""

/-- `t = strings.TrimSpace(strings.Split(t, ",")[0])`: a parameter token with
its trailing comma removed and surrounding whitespace trimmed. -/
def cleanParam (t : String) : String := goTrim ((goSplitChar ',' t).getD 0 "")

/-- The candidate parameter-type tokens: the even-indexed whitespace-split
tokens of the parameter text, cleaned as the goroutine body does. -/
def paramEvens (h : String) : List String :=
  (evenIdx (goSplitChar ' ' (paramTextOf h))).map cleanParam

/-- The list-append effect of the validation goroutines, in spawn order:
a token is appended exactly when its lookup yields a present, `true` key
(`if desired, valid := funcTypes[t]; valid && desired`). -/
def typeFilter (U : Universe) (l : List String) : List String :=
  l.filterMap (fun t => if U t = some true then some t else none)

/-- The shared `halt` flag contribution of one token list: some goroutine
sets `*halt = true` exactly when some token's key is absent (`!valid`). -/
def anyAbsent (U : Universe) (l : List String) : Bool :=
  l.any (fun t => (U t).isNone)

/-- The value of the shared `halt` flag after `wg.Wait()`: the return-type
goroutines run only when more than two non-name tokens exist. -/
def haltFlag (h : String) (U : Universe) : Bool :=
  (decide (2 < (leftNonparams h).length)
      && anyAbsent U ((leftNonparams h).map goTrim))
    || anyAbsent U (paramEvens h)

/-- The `out` list after `wg.Wait()` (empty when the guard
`len(nonparameters) > 2` skipped the return-type goroutines). -/
def outTypesOf (h : String) (U : Universe) : List String :=
  if 2 < (leftNonparams h).length
  then typeFilter U ((leftNonparams h).map goTrim)
  else []

/-- The `in` list after `wg.Wait()`. -/
def inTypesOf (h : String) (U : Universe) : List String :=
  typeFilter U (paramEvens h)

/-- The four return values of `parseJavaFuncHeader`. -/
structure ParseResult where
  name : String
  inTypes : List String
  outTypes : List String
  ok : Bool
deriving DecidableEq

/-- Shallow embedding of `parseJavaFuncHeader` (parse.go lines 90-175).
`none` models the panic on `header[len(header)-1]` when the preprocessed
header is empty (index -1 is out of range).  Character 59 is `;`,
so the last-character test is `getLast? = some ';'`. -/
def parseJavaFuncHeader (header : String) (U : Universe) : Option ParseResult :=
  if (preprocess header).toList = [] then none
  else if (preprocess header).toList.getLast? = some ';' then
    some ⟨preprocess header, [], [], false⟩
  else if (goSplitChar '(' (preprocess header)).length = 2 then
    if haltFlag (preprocess header) U
        || decide ((leftNonparams (preprocess header)).length ≤ 2) then
      some ⟨"", inTypesOf (preprocess header) U, outTypesOf (preprocess header) U, false⟩
    else
      some ⟨leftName (preprocess header),
            inTypesOf (preprocess header) U,
            outTypesOf (preprocess header) U, true⟩
  else some ⟨"", [], [], false⟩

/-- The opening curly brace, byte value 123, as the source writes it. -/
def lbrace : Char := Char.ofNat 123

/-- The closing curly brace, byte value 125. -/
def rbrace : Char := Char.ofNat 125

/-- The first loop of `balance` (parse.go lines 296-313): scan forward from
absolute position `pos` through the remaining characters for the first
opening brace; `some m` is the value of `m` after the `m++; break`
(one past the brace), `none` the end-of-buffer exit that writes a
diagnostic to /tmp/dat1 and returns `""`. -/
def findOpen : List Char → Nat → Option Nat
  | [], _ => none
  | c :: t, pos => if c = lbrace then some (pos + 1) else findOpen t (pos + 1)

/-- The second loop of `balance` (parse.go lines 317-334): starting at
absolute position `pos` with nesting depth `cnt`, adjust the depth at each
brace; `some m` is the position where the depth reached 0, `none` the
end-of-buffer exit (depth never returned to 0). -/
def matchLoop : List Char → Nat → Int → Option Nat
  | [], _, _ => none
  | c :: t, pos, cnt =>
    let c1 := if c = lbrace then cnt + 1 else cnt
    let c2 := if c = rbrace then c1 - 1 else c1
    if c2 = 0 then some pos else matchLoop t (pos + 1) c2

/-- Keep every character that is not a newline and not a horizontal tab:
`strings.Replace(strings.Replace(s, "\n", "", -1), "\t", "", -1)`. -/
def strip (l : List Char) : String :=
  String.mk (l.filter (fun c => !(c == '\n') && !(c == '\t')))

/-- Shallow embedding of `balance(arr, m)` (parse.go lines 290-343).
`m` is an `Int` because the caller passes `strings.Index`'s result, which
is `-1` when the header text is not found.  For negative `m` the first
loop's guard `m < len(arr)` holds, so `arr[m]` is evaluated with a negative
index: a runtime panic, modelled as `none`.  `some s` is the normal return
value `s` (`""` on the unbalanced paths). -/
def balance (arr : List Char) (m : Int) : Option String :=
  if m < 0 then none
  else
    match findOpen (arr.drop m.toNat) m.toNat with
    | none => some ""
    | some m1 =>
      match matchLoop (arr.drop m1) m1 1 with
      | none => some ""
      | some m2 => some (strip ((arr.take (m2 + 1)).drop m.toNat))

/-- FNV-1a step: `h = (h ^ b) * 16777619` on 32 bits. -/
def fnvStep (h b : Nat) : Nat := ((h ^^^ b) * 16777619) % 4294967296

/-- `hash(s)`: the 32-bit FNV-1a hash computed by `fnv.New32a()` over the
UTF-8 bytes of `s` (all strings hashed here are ASCII). -/
def hash (s : String) : Nat :=
  s.toList.foldl (fun h c => fnvStep h c.toNat) 2166136261

/-- The `Function` struct of parse.go (Id is `uint32`, kept as a `Nat`
below 2^32 by `hash`). -/
structure Function where
  Id : Nat
  Name : String
  Header : String
  InType : List String
  OutType : List String
  Source : String
deriving DecidableEq

/-- The `File` struct of parse.go. -/
structure File where
  Id : Nat
  Name : String
  Path : String
  Funcs : List Function
deriving DecidableEq

/-- Go `strings.Index(s, sub)` helper: the first position at which `sub`
occurs in `s`, if any. -/
def strIndexAux (sub : List Char) : List Char → Nat → Option Nat
  | [], i => if sub.isPrefixOf [] then some i else none
  | c :: t, i => if sub.isPrefixOf (c :: t) then some i else strIndexAux sub t (i + 1)

/-- Go `strings.Index(s, sub)`: first byte index of `sub` in `s`, or `-1`. -/
def strIndex (s sub : List Char) : Int :=
  match strIndexAux sub s 0 with
  | some i => (i : Int)
  | none => -1

/-- One pass of the `for fi < funcLen` loop of `extractFuncSrc`
(parse.go lines 253-274).  `steps` is `funcLen - fi`, with `funcLen` frozen
before the loop; the current slice `funcs` shrinks on deletion while
`funcLen` does not, so `funcs[fi]` can be out of range — a runtime panic,
modelled as `none`.  `none` also models the `log.Fatal()` on an empty
header and a panic inside `balance`. -/
def extractLoop (content : List Char) (funcs : List Function) (fi : Nat) :
    Nat → Option (List Function)
  | 0 => some funcs
  | steps + 1 =>
    match funcs[fi]? with
    | none => none
    | some fn =>
      if fn.Header = "" then none
      else
        match balance content (strIndex content fn.Header.toList) with
        | none => none
        | some src =>
          if src = "" then extractLoop content (funcs.eraseIdx fi) (fi + 1) steps
          else extractLoop content (funcs.set fi { fn with Source := src }) (fi + 1) steps

/-- Shallow embedding of `extractFuncSrc(f)` (parse.go lines 246-277).
`fs` models the file system: `fs path = some content` when `os.Stat`
succeeds and `ioutil.ReadFile` yields `content`; `fs path = none` is the
`os.IsNotExist` case, in which the whole body is skipped and `f` is left
unchanged. -/
def extractFuncSrc (f : File) (fs : String → Option (List Char)) : Option File :=
  match fs f.Path with
  | none => some f
  | some content =>
    (extractLoop content f.Funcs 0 f.Funcs.length).map (fun l => { f with Funcs := l })

/-- `strings.Replace(s, pat, "", -1)` for a single-character pattern. -/
def removeChar (pat : Char) (s : String) : String :=
  String.mk (s.toList.filter (fun c => !(c == pat)))

/-- `buff.Text()+"\n"`: each scanner line is stored with a newline
appended before being handed to the header-parsing goroutines. -/
def ctagHeadersOf (ctagLines : List String) : List String :=
  ctagLines.map (fun l => l ++ "\n")

/-- `splits := strings.Split(path, "/"); fname := splits[len(splits)-1]`. -/
def baseName (path : String) : String := (goSplitChar '/' path).getLastD ""

/-- The `funcHeaders` list collected by the header goroutines of `ParseFile`
(lines 215-226), in spawn order: a `Function` is kept when `ok` holds and
both type lists are non-empty, with `Id = hash(fname+strings.TrimSpace(header))`
and `Header` the raw line with every `{` removed and whitespace trimmed. -/
def funcHeadersOf (headers : List String) (U : Universe) : List Function :=
  headers.filterMap (fun header =>
    match parseJavaFuncHeader header U with
    | some r =>
      if r.ok && decide (0 < r.inTypes.length) && decide (0 < r.outTypes.length) then
        some ⟨hash (r.name ++ goTrim header), r.name,
              goTrim (removeChar lbrace header), r.inTypes, r.outTypes, ""⟩
      else none
    | none => none)

/-- Shallow embedding of `ParseFile(path, funcTypes)` (parse.go lines
181-243).  The ctags/grep/awk pipeline is an external collaborator; its
output lines are the `ctagLines` parameter.  A panicking parse goroutine
(`parseJavaFuncHeader` = `none`) crashes the process: `none`.  With zero
surviving functions the Go zero-value `File` and `false` are returned;
otherwise the constructed `File` goes through `extractFuncSrc` and is
returned with `true`. -/
def ParseFile (path : String) (ctagLines : List String) (U : Universe)
    (fs : String → Option (List Char)) : Option (File × Bool) :=
  if (ctagHeadersOf ctagLines).any (fun h => (parseJavaFuncHeader h U).isNone) then none
  else if 0 < (funcHeadersOf (ctagHeadersOf ctagLines) U).length then
    (extractFuncSrc ⟨hash path, baseName path, path,
        funcHeadersOf (ctagHeadersOf ctagLines) U⟩ fs).map (fun f => (f, true))
  else some (⟨0, "", "", []⟩, false)

/-- A concrete universe for witnesses: the two Java modifiers are known but
undesired keys, `int` is desired, everything else (including `""`) absent. -/
def Uex : Universe := fun s =>
  if s = "int" then some true
  else if s = "public" then some false
  else if s = "static" then some false
  else none

/-- The exact universe of the spec's end-to-end scenario A:
`{"int": true, "String": true, "float": false}`. -/
def U_A : Universe := fun s =>
  if s = "int" then some true
  else if s = "String" then some true
  else if s = "float" then some false
  else none

/-- Scenario A's header. -/
def headerA : String := "public static int add(int a, int b) \x7b"

/-- A `Function` whose body in `contentFG` has unbalanced braces. -/
def fnF : Function := ⟨0, "f", "int f(int a)", ["int"], ["int"], ""⟩

/-- A second `Function`, following `fnF` in the same `File`. -/
def fnG : Function := ⟨0, "g", "int g(int b)", ["int"], ["int"], ""⟩

/-- File content in which `fnF`'s braces never balance (`"int f(int a) {  int g(int b) {}"`:
scanning from `fnF`'s header the depth goes 1, 2, 1 and never returns to 0). -/
def contentFG : List Char := "int f(int a) \x7b  int g(int b) \x7b\x7d".toList

/-- A `File` holding two functions, the first of which fails extraction. -/
def fileFG : File := ⟨1, "F.java", "F.java", [fnF, fnG]⟩

/-- A file system holding `contentFG` at `fileFG`'s path. -/
def fsFG : String → Option (List Char) := fun p =>
  if p = "F.java" then some contentFG else none

/-- A `File` with one `Function` whose stored header does not occur in the
file's content. -/
def fileH : File := ⟨2, "G.java", "G.java", [⟨0, "h", "int h(int c)", ["int"], ["int"], ""⟩]⟩

/-- A file system whose content `"xyz"` does not contain `"int h(int c)"`. -/
def fsH : String → Option (List Char) := fun p =>
  if p = "G.java" then some ("xyz".toList) else none

/-- The candidate type tokens the parser actually validates against the
universe for a given header: the trimmed non-name left-segment tokens when
more than two of them exist (only then does the code spawn their checking
goroutines), plus the cleaned even-indexed parameter tokens — both only when
the header splits at exactly one opening parenthesis. -/
def declaredTypeTokens (header : String) : List String :=
  if (goSplitChar '(' (preprocess header)).length = 2 then
    (if 2 < (leftNonparams (preprocess header)).length
     then (leftNonparams (preprocess header)).map goTrim
     else []) ++ paramEvens (preprocess header)
  else []

/-- The `File` value `ParseFile` builds for the C8 witness scenario
(one accepted header, file bytes unavailable so extraction is skipped). -/
def fileD : File :=
  ⟨hash "d/Add.java", "Add.java", "d/Add.java",
    funcHeadersOf (ctagHeadersOf ["public static int add(int a, int b) \x7b"]) Uex⟩

/-- The contribution of one character to the brace-nesting depth. -/
def deltaChar (c : Char) : Int :=
  if c = lbrace then 1 else if c = rbrace then -1 else 0

/-- The net brace-nesting depth change over a character list. -/
def braceDelta : List Char → Int
  | [] => 0
  | c :: t => deltaChar c + braceDelta t

/-- A well-formed brace-balanced block: it starts with an opening brace,
its net depth change is zero, and every proper non-empty initial segment
has positive depth (the closing brace of the block is the first point
where the depth returns to zero). -/
def BalancedBlock (B : List Char) : Prop :=
  B.head? = some lbrace ∧ braceDelta B = 0 ∧
    ∀ n, n < B.length → 0 < n → 0 < braceDelta (B.take n)

instance (B : List Char) : Decidable (BalancedBlock B) := by
  unfold BalancedBlock; infer_instance

/-- A buffer tail whose depth, counted from 1 at the opening brace that
precedes it, never returns to zero — the situation produced by an
unmatched extra opening brace. -/
def NeverRezero (body : List Char) : Prop :=
  ∀ n, n < body.length + 1 → 1 + braceDelta (body.take n) ≠ 0

instance (body : List Char) : Decidable (NeverRezero body) := by
  unfold NeverRezero; infer_instance

theorem matchLoop_cons (c : Char) (t : List Char) (pos : Nat) (cnt : Int) :
    matchLoop (c :: t) pos cnt =
      if cnt + deltaChar c = 0 then some pos
      else matchLoop t (pos + 1) (cnt + deltaChar c) := by
  have hbr : lbrace ≠ rbrace := by decide
  have hrb : rbrace ≠ lbrace := by decide
  by_cases h1 : c = lbrace <;> by_cases h2 : c = rbrace
  · exact absurd (h1 ▸ h2) (by decide)
  · simp [matchLoop, deltaChar, h1, h2, hbr, hrb]
  · simp [matchLoop, deltaChar, h1, h2, hbr, hrb, Int.sub_eq_add_neg]
  · simp [matchLoop, deltaChar, h1, h2]

theorem matchLoop_app_exact (l : List Char) : ∀ (cnt : Int) (pos : Nat) (post : List Char),
    l ≠ [] →
    (∀ n, n < l.length → 0 < cnt + braceDelta (l.take n)) →
    cnt + braceDelta l = 0 →
    matchLoop (l ++ post) pos cnt = some (pos + l.length - 1) := by
  induction l with
  | nil => intro _ _ _ h _ _; exact absurd rfl h
  | cons ch t IH =>
    intro cnt pos post _ hpre hzero
    rw [List.cons_append, matchLoop_cons]
    rcases eq_or_ne t [] with ht | ht
    · subst ht
      have hz : cnt + deltaChar ch = 0 := by
        simp only [braceDelta] at hzero; omega
      simp [hz]
    · have hlt : 0 < t.length := List.length_pos.mpr ht
      have h1 : 0 < cnt + deltaChar ch := by
        have h := hpre 1 (by simp only [List.length_cons]; omega)
        simpa [braceDelta] using h
      rw [if_neg (by omega)]
      have hp : ∀ n, n < t.length → 0 < (cnt + deltaChar ch) + braceDelta (t.take n) := by
        intro n hn
        have h := hpre (n + 1) (by simp [List.length_cons]; omega)
        rw [List.take_succ_cons] at h
        simp only [braceDelta] at h
        omega
      have hz : (cnt + deltaChar ch) + braceDelta t = 0 := by
        simp only [braceDelta] at hzero; omega
      rw [IH (cnt + deltaChar ch) (pos + 1) post ht hp hz]
      congr 1
      simp only [List.length_cons]
      omega

theorem matchLoop_none (l : List Char) : ∀ (cnt : Int) (pos : Nat),
    (∀ n, n < l.length + 1 → cnt + braceDelta (l.take n) ≠ 0) →
    matchLoop l pos cnt = none := by
  induction l with
  | nil => intro _ _ _; rfl
  | cons ch t IH =>
    intro cnt pos h
    rw [matchLoop_cons]
    have h1 : cnt + deltaChar ch ≠ 0 := by
      have hh := h 1 (by simp [List.length_cons])
      simpa [braceDelta] using hh
    rw [if_neg h1]
    apply IH
    intro n hn
    have hh := h (n + 1) (by simp only [List.length_cons]; omega)
    rw [List.take_succ_cons] at hh
    simp only [braceDelta] at hh
    omega

theorem findOpen_app (gap : List Char) : ∀ (pos : Nat) (rest : List Char), lbrace ∉ gap →
    findOpen (gap ++ lbrace :: rest) pos = some (pos + gap.length + 1) := by
  induction gap with
  | nil => intro pos rest _; simp [findOpen]
  | cons g t IH =>
    intro pos rest hg
    have hgne : g ≠ lbrace := fun h => hg (h ▸ List.mem_cons_self g t)
    rw [List.cons_append]
    simp only [findOpen, if_neg hgne]
    rw [IH (pos + 1) rest (fun h => hg (List.mem_cons_of_mem _ h))]
    congr 1
    simp only [List.length_cons]
    omega

theorem balance_found (arr : List Char) (start m1 m2 : Nat)
    (h1 : findOpen (arr.drop start) start = some m1)
    (h2 : matchLoop (arr.drop m1) m1 1 = some m2) :
    balance arr (start : Int) = some (strip ((arr.take (m2 + 1)).drop start)) := by
  unfold balance
  rw [if_neg (by omega), Int.toNat_natCast]
  simp only [h1, h2]

theorem balance_notclosed (arr : List Char) (start m1 : Nat)
    (h1 : findOpen (arr.drop start) start = some m1)
    (h2 : matchLoop (arr.drop m1) m1 1 = none) :
    balance arr (start : Int) = some "" := by
  unfold balance
  rw [if_neg (by omega), Int.toNat_natCast]
  simp only [h1, h2]

theorem drop_len_append (l₁ l₂ : List Char) (n : Nat) (h : l₁.length = n) :
    (l₁ ++ l₂).drop n = l₂ := by
  subst h; exact List.drop_left l₁ l₂

theorem take_len_append (l₁ l₂ : List Char) (n : Nat) (h : l₁.length = n) :
    (l₁ ++ l₂).take n = l₁ := by
  subst h; exact List.take_left l₁ l₂

theorem balance_block_core (pre gap body post : List Char)
    (hgap : lbrace ∉ gap) (hne : body ≠ [])
    (hpre : ∀ n, n < body.length → 0 < 1 + braceDelta (body.take n))
    (hzero : 1 + braceDelta body = 0) :
    balance (pre ++ (gap ++ lbrace :: (body ++ post))) (pre.length : Int)
      = some (strip (gap ++ lbrace :: body)) := by
  have hbl : 0 < body.length := List.length_pos.mpr hne
  have h1 : findOpen ((pre ++ (gap ++ lbrace :: (body ++ post))).drop pre.length)
      pre.length = some (pre.length + gap.length + 1) := by
    rw [List.drop_left]
    exact findOpen_app gap pre.length (body ++ post) hgap
  have h2 : matchLoop ((pre ++ (gap ++ lbrace :: (body ++ post))).drop
        (pre.length + gap.length + 1)) (pre.length + gap.length + 1) 1
      = some (pre.length + gap.length + 1 + body.length - 1) := by
    have hdrop2 : (pre ++ (gap ++ lbrace :: (body ++ post))).drop
        (pre.length + gap.length + 1) = body ++ post := by
      have he : pre ++ (gap ++ lbrace :: (body ++ post))
          = (pre ++ gap ++ [lbrace]) ++ (body ++ post) := by simp
      rw [he]
      exact drop_len_append _ _ _ (by simp [List.length_append]; omega)
    rw [hdrop2]
    exact matchLoop_app_exact body 1 (pre.length + gap.length + 1) post hne hpre hzero
  rw [balance_found _ pre.length (pre.length + gap.length + 1)
    (pre.length + gap.length + 1 + body.length - 1) h1 h2]
  have harith : pre.length + gap.length + 1 + body.length - 1 + 1
      = pre.length + gap.length + 1 + body.length := by omega
  rw [harith]
  have htake : (pre ++ (gap ++ lbrace :: (body ++ post))).take
      (pre.length + gap.length + 1 + body.length) = pre ++ (gap ++ lbrace :: body) := by
    have he : pre ++ (gap ++ lbrace :: (body ++ post))
        = (pre ++ (gap ++ lbrace :: body)) ++ post := by simp
    rw [he]
    exact take_len_append _ _ _
      (by simp [List.length_append, List.length_cons]; omega)
  rw [htake, List.drop_left]

theorem balance_unbalanced_core (pre gap body : List Char)
    (hgap : lbrace ∉ gap)
    (hnz : ∀ n, n < body.length + 1 → 1 + braceDelta (body.take n) ≠ 0) :
    balance (pre ++ (gap ++ lbrace :: body)) (pre.length : Int) = some "" := by
  have h1 : findOpen ((pre ++ (gap ++ lbrace :: body)).drop pre.length) pre.length
      = some (pre.length + gap.length + 1) := by
    rw [List.drop_left]
    exact findOpen_app gap pre.length body hgap
  have h2 : matchLoop ((pre ++ (gap ++ lbrace :: body)).drop
        (pre.length + gap.length + 1)) (pre.length + gap.length + 1) 1 = none := by
    have hdrop2 : (pre ++ (gap ++ lbrace :: body)).drop (pre.length + gap.length + 1)
        = body := by
      have he : pre ++ (gap ++ lbrace :: body) = (pre ++ gap ++ [lbrace]) ++ body := by
        simp
      rw [he]
      exact drop_len_append _ _ _ (by simp [List.length_append]; omega)
    rw [hdrop2]
    exact matchLoop_none body 1 (pre.length + gap.length + 1) hnz
  exact balance_notclosed _ pre.length (pre.length + gap.length + 1) h1 h2

theorem balancedBlock_destruct {B : List Char} (hB : BalancedBlock B) :
    ∃ body, B = lbrace :: body ∧ body ≠ [] ∧
      (∀ n, n < body.length → 0 < 1 + braceDelta (body.take n)) ∧
      1 + braceDelta body = 0 := by
  obtain ⟨h1, h2, h3⟩ := hB
  have hd : deltaChar lbrace = 1 := by decide
  cases B with
  | nil => simp at h1
  | cons c body =>
    rw [List.head?_cons] at h1
    injection h1 with h1
    subst h1
    refine ⟨body, rfl, ?_, ?_, ?_⟩
    · intro h
      subst h
      simp only [braceDelta, hd] at h2
      omega
    · intro n hn
      have h := h3 (n + 1) (by simp only [List.length_cons]; omega) (by omega)
      rw [List.take_succ_cons] at h
      simp only [braceDelta, hd] at h
      omega
    · simp only [braceDelta, hd] at h2
      omega

/-- C5 counterexample: the claim asserts that `balance` fails on a block with
one unmatched extra closing brace, and that at an offset strictly before the
block it returns the block itself.  On `"{a}}"` (the block `"{a}"` with an
extra `}`) at offset 0, `balance` succeeds with `"{a}"`; and on `"ab{c}"` at
offset 0 (before the block `"{c}"`) it returns `"ab{c}"`, not `"{c}"`. -/
theorem balance_extraClose_succeeds :
    balance ("\x7ba\x7d\x7d".toList) 0 = some "\x7ba\x7d" ∧
    ("\x7ba\x7d" : String) ≠ "" ∧
    balance ("ab\x7bc\x7d".toList) 0 = some "ab\x7bc\x7d" ∧
    ("ab\x7bc\x7d" : String) ≠ "\x7bc\x7d" :=
  ⟨by decide, by decide, by decide, by decide⟩

/-- C5 (amended): for a buffer `pre ++ gap ++ B ++ post` with no opening brace
in `gap` and a well-formed brace-balanced block `B`, `balance` at offset
`pre.length` succeeds and returns the segment from the offset through the end
of the first balanced block — `gap ++ B` (not `B` alone) — with newlines and
tabs removed; extra closing braces after the block's balance point lie in
`post` and do not cause failure.  When the depth after the first opening
brace never returns to zero (as with one unmatched extra opening brace),
`balance` fails with the empty result, never a partial body. -/
theorem balance_roundTrip_amended (pre gap B post body : List Char)
    (hgap : lbrace ∉ gap) (hB : BalancedBlock B) (hbody : NeverRezero body) :
    balance (pre ++ (gap ++ (B ++ post))) (pre.length : Int) = some (strip (gap ++ B)) ∧
    balance (pre ++ (gap ++ lbrace :: body)) (pre.length : Int) = some "" := by
  obtain ⟨b, rfl, hne, hpre, hz⟩ := balancedBlock_destruct hB
  constructor
  · have h := balance_block_core pre gap b post hgap hne hpre hz
    simpa [List.cons_append, List.append_assoc] using h
  · exact balance_unbalanced_core pre gap body hgap hbody

/-- C5 witness: the amended round-trip at a concrete buffer
`"h int f() {a{b}c}}x"` (offset 2, gap `"int f() "`, block `"{a{b}c}"`,
trailing extra `}`) and a concrete unbalanced buffer `"h int f() {w"`. -/
theorem balance_roundTrip_amended_witness :
    balance ("h ".toList ++ ("int f() ".toList ++ ("\x7ba\x7bb\x7dc\x7d".toList ++ "\x7dx".toList)))
        (("h ".toList).length : Int)
      = some (strip ("int f() ".toList ++ "\x7ba\x7bb\x7dc\x7d".toList)) ∧
    balance ("h ".toList ++ ("int f() ".toList ++ lbrace :: "w".toList))
        (("h ".toList).length : Int) = some "" :=
  balance_roundTrip_amended "h ".toList "int f() ".toList "\x7ba\x7bb\x7dc\x7d".toList
    "\x7dx".toList "w".toList (by decide) (by decide) (by decide)

theorem mem_typeFilter {U : Universe} {l : List String} {x : String}
    (hx : x ∈ typeFilter U l) : U x = some true := by
  unfold typeFilter at hx
  rw [List.mem_filterMap] at hx
  obtain ⟨a, _, ha⟩ := hx
  by_cases h : U a = some true
  · rw [if_pos h] at ha
    injection ha with ha
    exact ha ▸ h
  · rw [if_neg h] at ha
    cases ha

/-- C1: whenever `parseJavaFuncHeader` returns without panicking and accepts
(`ok = true`), every element of the returned input-type and output-type lists
is a key of the type universe whose value is `true`. -/
theorem accepted_types_desired (H : String) (U : Universe) (r : ParseResult)
    (hp : parseJavaFuncHeader H U = some r) (hok : r.ok = true) :
    (∀ t ∈ r.inTypes, U t = some true) ∧ (∀ t ∈ r.outTypes, U t = some true) := by
  unfold parseJavaFuncHeader at hp
  split_ifs at hp
  · injection hp with hp
    subst hp
    simp at hok
  · injection hp with hp
    subst hp
    simp at hok
  · injection hp with hp
    subst hp
    refine ⟨fun t ht => mem_typeFilter ht, fun t ht => ?_⟩
    unfold outTypesOf at ht
    split_ifs at ht
    · exact mem_typeFilter ht
    · simp at ht
  · injection hp with hp
    subst hp
    simp at hok

/-- C1 witness: `"public static int add(int a, int b) {"` is accepted under a
universe holding `public ↦ false`, `static ↦ false`, `int ↦ true`, and the
returned input type `"int"` is a desired key. -/
theorem accepted_types_desired_witness :
    Uex "int" = some true :=
  (accepted_types_desired "public static int add(int a, int b) \x7b" Uex
      ⟨"add", ["int", "int"], ["int"], true⟩ (by decide) rfl).1 "int" (by decide)

/-- C2 counterexample: under the scenario-A universe
`{"int": true, "String": true, "float": false}`, the header
`"public static int add(int a, int b) {"` is not accepted: the modifier
tokens `public` and `static` are among the checked left-segment tokens,
are absent from the universe, and set the shared halt flag. -/
theorem scenarioA_not_accepted :
    parseJavaFuncHeader headerA U_A ≠ some ⟨"add", ["int", "int"], ["int"], true⟩ := by
  decide

/-- C2 (amended): with the scenario-A universe, parsing the scenario-A header
returns `accepted = false` with name `""`, inputTypes `["int", "int"]` and
outputTypes `["int"]`, because the absent modifier tokens `public` and
`static` set the rejection flag. -/
theorem scenarioA_actual :
    parseJavaFuncHeader headerA U_A = some ⟨"", ["int", "int"], ["int"], false⟩ := by
  decide

/-- C3: at `fileFG` (two functions, the first of which has unbalanced braces
in `contentFG`), `extractFuncSrc` does not drop only the failing function and
keep the other: deleting index 0 shrinks `Funcs` to length 1 while the frozen
loop bound stays 2, so the next iteration indexes `f.Funcs[1]` out of range
and the process panics (modelled as `none`); `fnG` is never processed. -/
theorem extract_unbalanced_first_panics : extractFuncSrc fileFG fsFG = none := by
  decide

/-- C4: a failure inside the core does crash the process: when a `Function`'s
stored header text does not occur in the file content, `strings.Index`
returns `-1` and `balance` evaluates `arr[-1]`, a panic (modelled as `none`) —
shown both for `balance` directly on content `"xyz"` with offset `-1` and for
`extractFuncSrc` on `fileH`, whose header `"int h(int c)"` is not in `"xyz"`. -/
theorem extract_missing_anchor_panics :
    balance ("xyz".toList) (-1) = none ∧ extractFuncSrc fileH fsH = none :=
  ⟨by decide, by decide⟩

theorem anyAbsent_of_mem {U : Universe} {l : List String} {t : String}
    (ht : t ∈ l) (hU : U t = none) : anyAbsent U l = true := by
  unfold anyAbsent
  rw [List.any_eq_true]
  exact ⟨t, ht, by simp [hU]⟩

theorem declared_absent_halt (H : String) (U : Universe) (t : String)
    (ht : t ∈ declaredTypeTokens H) (hU : U t = none) :
    haltFlag (preprocess H) U = true := by
  unfold declaredTypeTokens at ht
  split_ifs at ht with c3 c5
  · rcases List.mem_append.mp ht with hmem | hmem
    · simp [haltFlag, anyAbsent_of_mem hmem hU, c5]
    · simp [haltFlag, anyAbsent_of_mem hmem hU]
  · rw [List.nil_append] at ht
    simp [haltFlag, anyAbsent_of_mem ht hU]
  · simp at ht

/-- C6: if any checked declared-type token of the header (a trimmed non-name
left-segment token when more than two exist, or a cleaned even-indexed
parameter token) is absent from the universe, the parse (when it does not
panic) rejects, regardless of the other tokens. -/
theorem absent_type_rejects (H : String) (U : Universe) (r : ParseResult) (t : String)
    (hp : parseJavaFuncHeader H U = some r)
    (ht : t ∈ declaredTypeTokens H) (hU : U t = none) : r.ok = false := by
  have hhalt : haltFlag (preprocess H) U = true := declared_absent_halt H U t ht hU
  unfold parseJavaFuncHeader at hp
  split_ifs at hp <;> try (injection hp with hp; subst hp; rfl)
  -- only the accepting branch remains, and its guard contradicts the halt flag
  injection hp with hp
  subst hp
  have hc : (haltFlag (preprocess H) U
      || decide ((leftNonparams (preprocess H)).length ≤ 2)) = true := by
    simp [hhalt]
  exact absurd hc (by assumption)

/-- C6 witness: `"public static Unknown weird(int a) {"` has the checked
left-segment token `"Unknown"` absent from `Uex`, and is rejected. -/
theorem absent_type_rejects_witness :
    (⟨"", ["int"], [], false⟩ : ParseResult).ok = false :=
  absent_type_rejects "public static Unknown weird(int a) \x7b" Uex
    ⟨"", ["int"], [], false⟩ "Unknown" (by decide) (by decide) rfl

/-- C7 counterexample: `"public int three(int a) {"` has exactly three
whitespace-separated tokens in its full left segment, and every checked type
token (`int`) is a desired key of the universe, yet the parse rejects it
(`ok = false`): the code demands more than two tokens after removing the
name, i.e. at least four in the full left segment. -/
theorem three_token_left_rejected :
    (leftSegTokens (preprocess "public int three(int a) \x7b")).length = 3 ∧
    parseJavaFuncHeader "public int three(int a) \x7b" Uex
      = some ⟨"", ["int"], [], false⟩ :=
  ⟨by decide, by decide⟩

/-- C7 (amended): for a header that splits at exactly one opening parenthesis
(and whose preprocessed text is non-empty and does not end in `;`), the
token-count check requires more than two tokens to remain after removing the
name — at least four whitespace-separated tokens in the full left segment:
acceptance holds exactly when that count check passes and no checked type
token set the halt flag; with three or fewer left-segment tokens the header
is rejected as a non-function declaration. -/
theorem accept_iff_enough_tokens (H : String) (U : Universe) (r : ParseResult)
    (hp : parseJavaFuncHeader H U = some r)
    (h1 : (preprocess H).toList ≠ [])
    (h2 : (preprocess H).toList.getLast? ≠ some ';')
    (h3 : (goSplitChar '(' (preprocess H)).length = 2) :
    r.ok = true ↔
      (2 < (leftNonparams (preprocess H)).length ∧ haltFlag (preprocess H) U = false) := by
  unfold parseJavaFuncHeader at hp
  rw [if_neg h1, if_neg h2, if_pos h3] at hp
  by_cases hc : (haltFlag (preprocess H) U
      || decide ((leftNonparams (preprocess H)).length ≤ 2)) = true
  · rw [if_pos hc] at hp
    injection hp with hp
    subst hp
    constructor
    · intro h
      exact absurd h (by simp)
    · rintro ⟨hlen, hhalt⟩
      exfalso
      rw [Bool.or_eq_true] at hc
      rcases hc with hc | hc
      · rw [hhalt] at hc
        cases hc
      · rw [decide_eq_true_eq] at hc
        omega
  · rw [if_neg hc] at hp
    injection hp with hp
    subst hp
    simp only [Bool.or_eq_true, decide_eq_true_eq, not_or, Bool.not_eq_true] at hc
    exact ⟨fun _ => ⟨by omega, hc.1⟩, fun _ => rfl⟩

/-- C7 witness: the accepting four-token header
`"public static int add(int a, int b) {"` under `Uex`. -/
theorem accept_iff_enough_tokens_witness :
    (⟨"add", ["int", "int"], ["int"], true⟩ : ParseResult).ok = true ↔
      (2 < (leftNonparams (preprocess "public static int add(int a, int b) \x7b")).length ∧
        haltFlag (preprocess "public static int add(int a, int b) \x7b") Uex = false) :=
  accept_iff_enough_tokens "public static int add(int a, int b) \x7b" Uex
    ⟨"add", ["int", "int"], ["int"], true⟩ (by decide) (by decide) (by decide) (by decide)

/-- C8: whenever `ParseFile` returns (does not panic), the success flag is
`true` exactly when at least one `Function` survived header filtering; with
zero survivors it returns the zero-value `File` and `false`. -/
theorem parseFile_ok_iff_survivors (path : String) (lines : List String) (U : Universe)
    (fs : String → Option (List Char)) (f : File) (b : Bool)
    (hp : ParseFile path lines U fs = some (f, b)) :
    b = true ↔ funcHeadersOf (ctagHeadersOf lines) U ≠ [] := by
  unfold ParseFile at hp
  split_ifs at hp with hAny hPos
  · rw [Option.map_eq_some'] at hp
    obtain ⟨a, _, ha⟩ := hp
    injection ha with h1 h2
    subst h2
    exact iff_of_true rfl (List.length_pos.mp hPos)
  · injection hp with hp
    injection hp with h1 h2
    subst h2
    apply iff_of_false (by simp)
    simp only [not_lt, Nat.le_zero] at hPos
    exact fun hne => hne (List.length_eq_zero.mp hPos)

/-- C8 witness: one accepted header and an absent file (extraction skipped):
`ParseFile` returns the built `File` with `true`, and the survivor list is
non-empty. -/
theorem parseFile_ok_iff_survivors_witness :
    true = true ↔
      funcHeadersOf (ctagHeadersOf ["public static int add(int a, int b) \x7b"]) Uex ≠ [] :=
  parseFile_ok_iff_survivors "d/Add.java" ["public static int add(int a, int b) \x7b"]
    Uex (fun _ => none) fileD true (by decide)

set_option maxHeartbeats 1000000 in
/-- C9: under any universe that lacks `""` as a key, a header whose
parameter list is empty (no characters between `(` and `)`) is rejected:
splitting the empty parameter text on spaces yields the single token `""`
at even index 0, whose lookup fails and sets the halt flag — so
zero-argument functions can never be accepted under such a universe. -/
theorem empty_params_rejected (H : String) (U : Universe) (r : ParseResult)
    (hU : U "" = none)
    (hp : parseJavaFuncHeader H U = some r)
    (h3 : (goSplitChar '(' (preprocess H)).length = 2)
    (hpt : paramTextOf (preprocess H) = "") :
    r.ok = false := by
  have hev : paramEvens (preprocess H) = [""] := by
    unfold paramEvens
    rw [hpt]
    rfl
  have hhalt : haltFlag (preprocess H) U = true := by
    have ha : anyAbsent U (paramEvens (preprocess H)) = true := by
      rw [hev]
      unfold anyAbsent
      simp [hU]
    simp [haltFlag, ha]
  unfold parseJavaFuncHeader at hp
  split_ifs at hp <;> try (injection hp with hp; subst hp; rfl)
  -- only the accepting branch remains; its guard contradicts the halt flag
  injection hp with hp
  subst hp
  have hc : (haltFlag (preprocess H) U
      || decide ((leftNonparams (preprocess H)).length ≤ 2)) = true := by
    simp [hhalt]
  exact absurd hc (by assumption)

/-- C9 witness: the zero-argument header `"public static void run() {"`
under `Uex` (which lacks `""`). -/
theorem empty_params_rejected_witness :
    (⟨"", [], [], false⟩ : ParseResult).ok = false :=
  empty_params_rejected "public static void run() \x7b" Uex ⟨"", [], [], false⟩
    rfl (by decide) (by decide) (by decide)

/-- C10: for every raw header whose text before the first `//` trims to the
empty string, `parseJavaFuncHeader` evaluates `header[len(header)-1]` with
`len(header) = 0` — an out-of-range panic (modelled as `none`) — even when
the raw header itself is non-empty; totality needs non-comment,
non-whitespace content, not merely a non-empty line. -/
theorem empty_header_panics (H : String) (U : Universe)
    (hne : H ≠ "") (hempty : preprocess H = "") :
    parseJavaFuncHeader H U = none := by
  have h : (preprocess H).toList = [] := by rw [hempty]; rfl
  rw [parseJavaFuncHeader, if_pos h]

/-- C10 witness: the non-empty, comment-only line `"   // TODO"` panics the
parser. -/
theorem empty_header_panics_witness :
    parseJavaFuncHeader "   // TODO" Uex = none :=
  empty_header_panics "   // TODO" Uex (by decide) (by decide)

end Pakkun
